import Mathlib

/-
Verification of the EV-Crawler focused crawler core.

Shallow embedding of:
  - src/crawler/relevance.py   (content_score, recency_boost, final_priority)
  - src/crawler/frontier.py    (Frontier: max-priority queue + seen set)
  - src/crawler/crawl.py       (run: the crawl orchestrator, both platforms)

Modelling conventions:
  - Python floats are modelled as exact rationals (the literals 0.2, 0.6,
    1.0 ... become the rationals 1/5, 3/5, 1 ...); the one genuinely
    transcendental function, recency_boost (math.pow(2.0, -h/H)), is
    modelled over the reals with real exponentiation, and the crawl
    orchestrator is parameterised over the recency function so that the
    orchestrator-level theorems hold for every recency function, the real
    one included.
  - Python str operations are modelled character-exactly on lists of
    characters (lower, strip, count of non-overlapping occurrences,
    replace, regex token splitting for the fixed character class used).
  - External collaborators (the PRAW / HTTP fetchers, the clock, the
    record normalizer's URL/domain extraction, configuration loading) are
    inputs of the model, as the spec treats them as boundaries.  A fetched
    raw item is either `good` (its attribute accesses succeed) or `bad`
    (its processing raises an exception at the first attribute access).
  - Python's heapq module (standard library, not repository code) is
    modelled by its contract: heappush inserts an entry, heappop removes
    and returns the least entry under the entry order; frontier.py orders
    entries by the dataclass order on (priority, seq) with the negated
    priority stored, so the least entry is the max-priority, least-seq one.
-/

/- Batteries marks rational addition, multiplication and subtraction
irreducible; concrete runs of the model are evaluated by decide, so they
are restored to the default reducibility here. -/
attribute [local semireducible] Rat.add Rat.mul Rat.sub

/-! ## Python string primitives (character-exact models) -/

/-- Character class of the token regex in relevance._tokenize:
a character matched by the regex class A-Za-z0-9 underscore plus minus. -/
def isTokChar (c : Char) : Bool :=
  c.isAlpha || c.isDigit || c == '_' || c == '+' || c == '-'

/-- str.lower for the ASCII texts handled here, on a character list. -/
def pyLower (l : List Char) : List Char :=
  l.map Char.toLower

/-- str.strip: drop whitespace from both ends. -/
def pyStrip (l : List Char) : List Char :=
  ((l.dropWhile Char.isWhitespace).reverse.dropWhile Char.isWhitespace).reverse

/-- Helper for str.count: counts left-to-right non-overlapping occurrences
of a nonempty needle.  Structural recursion on a fuel argument (each step
shortens the scanned list by at least one character, so fuel equal to the
initial length never runs out); this keeps the function kernel-computable. -/
def pyCountAuxF (needle : List Char) : Nat → List Char → Nat
  | 0, _ => 0
  | _ + 1, [] => 0
  | fuel + 1, c :: rest =>
    if needle.isPrefixOf (c :: rest) then
      1 + pyCountAuxF needle fuel (List.drop (needle.length - 1) rest)
    else
      pyCountAuxF needle fuel rest

/-- Helper for str.count at adequate fuel. -/
def pyCountAux (needle hay : List Char) : Nat :=
  pyCountAuxF needle hay.length hay

/-- Python str.count: number of non-overlapping occurrences; on an empty
needle Python returns len(s) + 1. -/
def pyCount (needle hay : List Char) : Nat :=
  if needle = [] then hay.length + 1 else pyCountAux needle hay

/-- Python str.replace for a nonempty needle (the orchestrator only
replaces the fixed nonempty literals "<p>" and "</p>").  Fueled like
pyCountAuxF for kernel computability. -/
def pyReplaceF (needle repl : List Char) : Nat → List Char → List Char
  | 0, l => l
  | _ + 1, [] => []
  | fuel + 1, c :: rest =>
    if needle ≠ [] ∧ needle.isPrefixOf (c :: rest) then
      repl ++ pyReplaceF needle repl fuel (List.drop (needle.length - 1) rest)
    else
      c :: pyReplaceF needle repl fuel rest

/-- Python str.replace at adequate fuel. -/
def pyReplace (needle repl hay : List Char) : List Char :=
  pyReplaceF needle repl hay.length hay

/-- re.findall of the token class: maximal runs of token characters.
Second argument is the (reversed) run being accumulated. -/
def tokenizeAux : List Char → List Char → List (List Char)
  | [], acc => if acc = [] then [] else [acc.reverse]
  | c :: rest, acc =>
    if isTokChar c then tokenizeAux rest (c :: acc)
    else if acc = [] then tokenizeAux rest []
    else acc.reverse :: tokenizeAux rest []

/-- relevance._tokenize: lowercase, then split into maximal runs of the
token character class (empty text gives no tokens). -/
def pyTokens (s : String) : List (List Char) :=
  tokenizeAux (pyLower s.data) []

/-! ## src/crawler/relevance.py -/

/-- relevance._phrase_hits: sum over the phrases of the non-overlapping
occurrence counts of the lowercased stripped phrase in the lowercased
text; empty (post-strip) phrases are skipped; empty text gives 0. -/
def phrase_hits (text : String) (phrases : List String) : Nat :=
  if text = "" then 0
  else
    let tl := pyLower text.data
    phrases.foldl
      (fun c ph =>
        let phl := pyStrip (pyLower ph.data)
        if phl = [] then c else c + pyCount phl tl)
      0

/-- The canonical embedding of a count into the rationals, spelled so
that the kernel evaluates it (it equals Nat.cast, see natQ_eq_cast). -/
def natQ (n : Nat) : ℚ :=
  mkRat (Int.ofNat n) 1

theorem natQ_eq_cast (n : Nat) : natQ n = (n : ℚ) := by
  simp [natQ, Rat.mkRat_eq_div]

/-- relevance.content_score over exact rationals: 0.2 per unique keyword
token appearing in the text, 0.6 per literal keyword-phrase occurrence,
plus brand and policy bonuses per literal occurrence (the float
literals 0.2 and 0.6 are the exact rationals mkRat 1 5 and mkRat 3 5;
mkRat is used rather than division because the kernel evaluates it). -/
def content_score (text : String) (keywords brand_terms policy_terms : List String)
    (brand_bonus policy_bonus : ℚ) : ℚ :=
  if text = "" then 0
  else
    let toks := pyTokens text
    let key_tokens := (keywords.foldl (fun acc kw => acc ++ pyTokens kw) []).dedup
    let inter := (toks.dedup.filter (fun t => decide (t ∈ key_tokens))).length
    let base : ℚ := mkRat 1 5 * natQ inter + mkRat 3 5 * natQ (phrase_hits text keywords)
    base + natQ (phrase_hits text brand_terms) * brand_bonus
         + natQ (phrase_hits text policy_terms) * policy_bonus

/-- relevance.final_priority over exact rationals: clamp content below by
0 and recency into the unit interval, multiply by the clamped
authority/penalty multiplier. -/
def final_priority (content recency author_auth url_auth off_topic_penalty : ℚ) : ℚ :=
  let c := max content 0
  let r := max (min recency 1) 0
  let mult := (1 + max author_auth 0 + max url_auth 0) * (1 - max off_topic_penalty 0)
  c * r * max mult 0

/-- relevance.recency_boost over the reals: 1 on the degenerate guards,
otherwise the real power 2 ^ (-hours / halfLife). -/
noncomputable def recency_boost (hours_since half_life_hours : ℝ) : ℝ :=
  if hours_since ≤ 0 then 1
  else if half_life_hours ≤ 0 then 1
  else (2 : ℝ) ^ (-(hours_since / half_life_hours))

/-! ## src/crawler/frontier.py -/

/-- frontier._PQItem: a heap entry (dataclass with order=True); the order
compares (priority, seq) lexicographically, item has compare=False.
`priority` holds the negated priority, as stored by Frontier.push. -/
structure PQItem (τ : Type) where
  priority : ℚ
  seq : ℕ
  item : τ
deriving DecidableEq

/-- The dataclass order on _PQItem restricted to its compared fields:
lexicographic on (priority, seq). -/
def pqLE {τ : Type} (a b : PQItem τ) : Prop :=
  a.priority < b.priority ∨ (a.priority = b.priority ∧ a.seq ≤ b.seq)

instance {τ : Type} (a b : PQItem τ) : Decidable (pqLE a b) := by
  unfold pqLE; infer_instance

theorem pqLE_refl {τ : Type} (a : PQItem τ) : pqLE a a :=
  Or.inr ⟨rfl, Nat.le_refl _⟩

theorem pqLE_trans {τ : Type} {a b c : PQItem τ} (h1 : pqLE a b) (h2 : pqLE b c) :
    pqLE a c := by
  rcases h1 with h1 | ⟨h1, h1s⟩ <;> rcases h2 with h2 | ⟨h2, h2s⟩
  · exact Or.inl (lt_trans h1 h2)
  · exact Or.inl (h2 ▸ h1)
  · exact Or.inl (h1 ▸ h2)
  · exact Or.inr ⟨h1.trans h2, h1s.trans h2s⟩

theorem pqLE_total {τ : Type} (a b : PQItem τ) : pqLE a b ∨ pqLE b a := by
  rcases lt_trichotomy a.priority b.priority with h | h | h
  · exact Or.inl (Or.inl h)
  · rcases Nat.le_total a.seq b.seq with hs | hs
    · exact Or.inl (Or.inr ⟨h, hs⟩)
    · exact Or.inr (Or.inr ⟨h.symm, hs⟩)
  · exact Or.inr (Or.inl h)

/-- heapq, modelled by its contract: heappop removes and returns the least
entry of the heap under the entry order (the first such entry when the
order does not separate two entries; reachable frontiers have distinct seq
values, so the least entry is in fact unique). -/
def popMin {τ : Type} : List (PQItem τ) → Option (PQItem τ × List (PQItem τ))
  | [] => none
  | e :: rest =>
    match popMin rest with
    | none => some (e, [])
    | some (m, rest') => if pqLE e m then some (e, rest) else some (m, e :: rest')

/-- Frontier: max-heap priority queue with a seen set
(Python attribute names: _heap, _seq, _seen). -/
structure Frontier (τ : Type) where
  heap : List (PQItem τ)
  seq : ℕ
  seenKeys : List String
deriving DecidableEq

/-- Frontier.__init__. -/
def Frontier.new {τ : Type} : Frontier τ := ⟨[], 0, []⟩

/-- Frontier.seen. -/
def Frontier.seen {τ : Type} (f : Frontier τ) (key : String) : Bool :=
  f.seenKeys.contains key

/-- Frontier.mark_seen (set insertion; only membership is observable). -/
def Frontier.mark_seen {τ : Type} (f : Frontier τ) (key : String) : Frontier τ :=
  { f with seenKeys := key :: f.seenKeys }

/-- Frontier.push: store the negated priority with the next sequence
number (heapq insertion modelled as append; pop picks the least entry). -/
def Frontier.push {τ : Type} (f : Frontier τ) (priority : ℚ) (item : τ) : Frontier τ :=
  { f with heap := f.heap ++ [⟨-priority, f.seq, item⟩], seq := f.seq + 1 }

/-- Frontier.pop: None on an empty heap, else heappop and un-negate the
stored priority.  The resulting frontier is returned alongside. -/
def Frontier.pop {τ : Type} (f : Frontier τ) : Option (ℚ × τ) × Frontier τ :=
  match popMin f.heap with
  | none => (none, f)
  | some (e, h) => (some (-e.priority, e.item), { f with heap := h })

/-- Frontier.__len__. -/
def Frontier.size {τ : Type} (f : Frontier τ) : ℕ := f.heap.length

/-- Push a list of (priority, item) pairs in order. -/
def Frontier.pushList {τ : Type} (f : Frontier τ) : List (ℚ × τ) → Frontier τ
  | [] => f
  | (p, t) :: rest => (f.push p t).pushList rest

/-- Frontier states reachable from a fresh frontier by the four mutators;
in such states seq reflects push order. -/
inductive Frontier.Reachable {τ : Type} : Frontier τ → Prop
  | new : Frontier.Reachable Frontier.new
  | push (f : Frontier τ) (p : ℚ) (t : τ) :
      Frontier.Reachable f → Frontier.Reachable (f.push p t)
  | pop (f : Frontier τ) : Frontier.Reachable f → Frontier.Reachable (f.pop).2
  | mark (f : Frontier τ) (k : String) :
      Frontier.Reachable f → Frontier.Reachable (f.mark_seen k)

theorem popMin_none {τ : Type} {l : List (PQItem τ)} :
    popMin l = none ↔ l = [] := by
  cases l with
  | nil => simp [popMin]
  | cons e rest =>
    simp only [popMin]
    cases h : popMin rest with
    | none => simp
    | some p => cases p with | mk m r => by_cases hle : pqLE e m <;> simp [hle]

theorem popMin_perm {τ : Type} {l : List (PQItem τ)} {e : PQItem τ}
    {h : List (PQItem τ)} (hp : popMin l = some (e, h)) : l.Perm (e :: h) := by
  induction l generalizing e h with
  | nil => simp [popMin] at hp
  | cons a rest ih =>
    simp only [popMin] at hp
    cases hrest : popMin rest with
    | none =>
      rw [hrest] at hp
      rcases popMin_none.mp hrest with rfl
      simp only [Option.some.injEq, Prod.mk.injEq] at hp
      rcases hp with ⟨rfl, rfl⟩
      exact List.Perm.refl _
    | some p =>
      rcases p with ⟨m, rest'⟩
      rw [hrest] at hp
      by_cases hle : pqLE a m
      · simp only [hle, if_pos, Option.some.injEq, Prod.mk.injEq] at hp
        rcases hp with ⟨rfl, rfl⟩
        exact List.Perm.refl _
      · simp only [hle, if_neg, not_false_iff, Option.some.injEq, Prod.mk.injEq] at hp
        rcases hp with ⟨rfl, rfl⟩
        exact (List.Perm.cons a (ih hrest)).trans (List.Perm.swap m a _)

theorem popMin_least {τ : Type} {l : List (PQItem τ)} {e : PQItem τ}
    {h : List (PQItem τ)} (hp : popMin l = some (e, h)) :
    ∀ x ∈ l, pqLE e x := by
  induction l generalizing e h with
  | nil => simp [popMin] at hp
  | cons a rest ih =>
    simp only [popMin] at hp
    cases hrest : popMin rest with
    | none =>
      rw [hrest] at hp
      rcases popMin_none.mp hrest with rfl
      simp only [Option.some.injEq, Prod.mk.injEq] at hp
      rcases hp with ⟨rfl, rfl⟩
      intro x hx
      rcases List.mem_cons.mp hx with rfl | hx
      · exact pqLE_refl _
      · simp at hx
    | some p =>
      rcases p with ⟨m, rest'⟩
      rw [hrest] at hp
      by_cases hle : pqLE a m
      · simp only [hle, if_pos, Option.some.injEq, Prod.mk.injEq] at hp
        rcases hp with ⟨rfl, rfl⟩
        intro x hx
        rcases List.mem_cons.mp hx with rfl | hx
        · exact pqLE_refl _
        · exact pqLE_trans hle (ih hrest x hx)
      · simp only [hle, if_neg, not_false_iff, Option.some.injEq, Prod.mk.injEq] at hp
        rcases hp with ⟨rfl, rfl⟩
        intro x hx
        rcases List.mem_cons.mp hx with rfl | hx
        · rcases pqLE_total m x with hmx | hxm
          · exact hmx
          · exact absurd hxm hle
        · exact ih hrest x hx

/-! ## src/crawler/crawl.py : data for the orchestrator model -/

/-- A raw fetched item: `good` when its attribute accesses succeed, `bad`
when processing it raises an exception at the first attribute access
(a malformed or network-failed item). -/
inductive Fetched (α : Type) where
  | good (a : α)
  | bad
deriving DecidableEq

/-- A reddit submission as the orchestrator reads it.  hoursSince models
(time.time() - s.created_utc) / 3600, an input of the external clock.
author is the author name when s.author is truthy, none otherwise.
Fields only passed through to the normalizer boundary (url, score,
num_comments, ...) are not modelled. -/
structure RSub where
  id : String
  title : String
  selftext : String
  author : Option String
  hoursSince : ℚ
deriving DecidableEq

/-- A reddit comment as the orchestrator reads it.  authorName models
getattr(getattr(c, "author", None), "name", "") and parent models
c.parent_id (None or a fullname string). -/
structure RComment where
  id : String
  body : String
  authorName : String
  parent : Option String
deriving DecidableEq

/-- An author-timeline submission: only subreddit and id are read. -/
structure ASub where
  subreddit : String
  id : String
deriving DecidableEq

/-- A Hacker News item dict as the orchestrator reads it. -/
structure HNItem where
  typeStr : String
  id : String
  title : String
  text : String
  author : String
  hoursSince : ℚ
deriving DecidableEq

/-- The configuration and boundary functions the orchestrator reads.
rb stands for the recency_boost function (the real one is transcendental;
the orchestrator-level theorems hold for every rb), and outDomains for
the normalizer's outbound-domain extraction (a declared boundary). -/
structure Params where
  max_items : ℕ
  min_text_len : ℕ
  tau_data : ℚ
  tau_frontier : ℚ
  half_life : ℚ
  brand_bonus : ℚ
  policy_bonus : ℚ
  keywords : List String
  brands : List String
  policies : List String
  rb : ℚ → ℚ → ℚ
  outDomains : String → List String

/-- The frontier task descriptors pushed by crawl.run
("search", "comments", "author", "submission" with their payload keys). -/
inductive CrawlTask where
  | search (subreddit query : String)
  | comments (submission_id : String)
  | author (name : String)
  | submission (subreddit id : String)
deriving DecidableEq

/-- One metrics row as written by persist.write_metrics (the external
ts_iso and elapsed_sec values are clock boundary data and not modelled). -/
structure MRow where
  items_fetched : ℕ
  items_written : ℕ
  success_calls : ℕ
  error_calls : ℕ
  dedup_skipped : ℕ
deriving DecidableEq

/-- A persisted record as far as the orchestrator's control flow is
concerned: which kind was written for which identifier (the full record
body is the normalizer boundary). -/
structure Rec where
  kind : String
  id : String
deriving DecidableEq

/-- The orchestrator's run state: the frontier, the seen_posts dedup set,
the five metric counters, and the sink outputs written so far (posts
JSONL records, graph nodes, graph edges, metrics rows). -/
structure St where
  fr : Frontier CrawlTask
  seen_posts : List String
  items_fetched : ℕ
  items_written : ℕ
  success_calls : ℕ
  error_calls : ℕ
  dedup_skipped : ℕ
  posts : List Rec
  nodes : List (String × String)
  edges : List (String × String × String × ℚ)
  metrics : List MRow
deriving DecidableEq

/-- The state at the start of run (all counters zero, everything empty). -/
def St.init : St :=
  ⟨Frontier.new, [], 0, 0, 0, 0, 0, [], [], [], []⟩

/-- String-valued strip. -/
def pyStripS (s : String) : String :=
  ⟨pyStrip s.data⟩

/-- normalize_record's text field: strip(title + newline + body) when both
are nonempty, else whichever of the two is nonempty. -/
def recordText (title body : String) : String :=
  if title ≠ "" ∧ body ≠ "" then pyStripS (title ++ "\n" ++ body)
  else if title ≠ "" then title else body

/-- The MENTIONS_BRAND / MENTIONS_POLICY edges crawl.run emits for a
record text: one edge per brand (then policy) term whose lowercased
literal occurrence count in the lowercased text is nonzero, weighted by
that count. -/
def mentionEdges (P : Params) (srcId : String) (text : String) :
    List (String × String × String × ℚ) :=
  (P.brands.filterMap fun b =>
    let cnt := pyCount (pyLower b.data) (pyLower text.data)
    if 0 < cnt then some (srcId, "BRAND", "MENTIONS_BRAND", natQ cnt) else none) ++
  (P.policies.filterMap fun pterm =>
    let cnt := pyCount (pyLower pterm.data) (pyLower text.data)
    if 0 < cnt then some (srcId, "POLICY", "MENTIONS_POLICY", natQ cnt) else none)

/-! ## crawl.run, reddit branch -/

/-- The loop-local variable text of the search branch:
strip(title + newline + selftext). -/
def searchText (s : RSub) : String :=
  pyStripS (s.title ++ "\n" ++ s.selftext)

/-- The loop-local variable content of the search branch. -/
def searchContent (P : Params) (s : RSub) : ℚ :=
  content_score (searchText s) P.keywords P.brands P.policies P.brand_bonus P.policy_bonus

/-- The loop-local variable pr of the search branch
(final_priority of content and the recency boost of the item's age). -/
def searchPr (P : Params) (s : RSub) : ℚ :=
  final_priority (searchContent P s) (P.rb s.hoursSince P.half_life) 0 0 0

/-- Processing of one search-result submission (crawl.py lines 102-198):
count the fetch, catch a raising item into error_calls, dedup against
seen_posts, filter below-minimum text, score, then the two-tier
admission: persist + graph + Comments/Author pushes at final_priority if
content_score reaches tau_data, else a single Comments push at
final_priority if it reaches tau_frontier, else nothing. -/
def processSearchItem (P : Params) (subreddit : String) (st : St) (it : Fetched RSub) : St :=
  let st := { st with items_fetched := st.items_fetched + 1 }
  match it with
  | .bad => { st with error_calls := st.error_calls + 1 }
  | .good s =>
    if s.id ∈ st.seen_posts then
      { st with dedup_skipped := st.dedup_skipped + 1 }
    else
      let st := { st with seen_posts := s.id :: st.seen_posts }
      if (searchText s).length < P.min_text_len then st
      else
        let content := searchContent P s
        let pr := searchPr P s
        if P.tau_data ≤ content then
          let rtext := recordText s.title s.selftext
          let domains := P.outDomains rtext
          let postNode := "reddit:post:" ++ s.id
          let st := { st with
            posts := st.posts ++ [(⟨"post", s.id⟩ : Rec)],
            items_written := st.items_written + 1,
            nodes := st.nodes ++ [(postNode, "post")] ++
              (match s.author with
               | some a => [("reddit:author:" ++ a, "author")]
               | none => []) ++
              [("reddit:container:" ++ subreddit, "container")] ++
              domains.map (fun d => ("domain:" ++ d, "domain")),
            edges := st.edges ++
              (match s.author with
               | some a => [(postNode, "reddit:author:" ++ a, "AUTHORED_BY", (1 : ℚ))]
               | none => []) ++
              [(postNode, "reddit:container:" ++ subreddit, "IN_CONTAINER", (1 : ℚ))] ++
              domains.map (fun d => (postNode, "domain:" ++ d, "LINKS_TO_DOMAIN", (1 : ℚ))) ++
              mentionEdges P postNode rtext }
          let st := { st with fr := st.fr.push pr (CrawlTask.comments s.id) }
          match s.author with
          | some a => { st with fr := st.fr.push pr (CrawlTask.author a) }
          | none => st
        else if P.tau_frontier ≤ pr then
          { st with fr := st.fr.push pr (CrawlTask.comments s.id) }
        else st

/-- Processing of one fetched comment (crawl.py lines 202-261): catch a
raising comment into error_calls, filter below-minimum body, otherwise
unconditionally persist and emit author / comment nodes and the REPLY_TO
edge resolved from the parent fullname type tag. -/
def processComment (P : Params) (st : St) (it : Fetched RComment) : St :=
  match it with
  | .bad => { st with error_calls := st.error_calls + 1 }
  | .good c =>
    if (pyStrip c.body.data).length < P.min_text_len then st
    else
      let st := { st with
        posts := st.posts ++ [(⟨"comment", c.id⟩ : Rec)],
        items_written := st.items_written + 1 }
      let st :=
        if c.authorName ≠ "" then
          { st with
            nodes := st.nodes ++ [("reddit:author:" ++ c.authorName, "author")],
            edges := st.edges ++
              [("reddit:comment:" ++ c.id, "reddit:author:" ++ c.authorName,
                "AUTHORED_BY", (1 : ℚ))] }
        else st
      let st := { st with nodes := st.nodes ++ [("reddit:comment:" ++ c.id, "comment")] }
      match c.parent with
      | none => st
      | some pid =>
        if pid = "" then st
        else
          let dst :=
            if ("t3_" : String).isPrefixOf pid then "reddit:post:" ++ pid.drop 3
            else if ("t1_" : String).isPrefixOf pid then "reddit:comment:" ++ pid.drop 3
            else "reddit:" ++ pid
          { st with edges := st.edges ++
              [("reddit:comment:" ++ c.id, dst, "REPLY_TO", (1 : ℚ))] }

/-- Processing of the author-timeline branch (crawl.py lines 263-267):
push a submission task at priority 1.0 per yielded item.  This branch has
no try/except: a raising item propagates its exception (error result). -/
def processAuthorList (st : St) : List (Fetched ASub) → Except St St
  | [] => .ok st
  | .good s :: rest =>
    processAuthorList
      { st with fr := st.fr.push 1 (CrawlTask.submission s.subreddit s.id) } rest
  | .bad :: _ => .error st

/-- The external reddit collaborators: client construction success and the
three fetchers, as input sequences per task payload. -/
structure REnv where
  clientOk : Bool
  seeds : List (String × String)
  searchRes : String → String → List (Fetched RSub)
  commentsRes : String → List (Fetched RComment)
  authorRes : String → List (Fetched ASub)

/-- Dispatch of one popped frontier entry on its task kind
(crawl.py lines 99-271).  The submission branch pushes a comments task at
priority 1.0; an error value models an exception propagating out. -/
def dispatchTask (P : Params) (env : REnv) (st : St) (t : CrawlTask) : Except St St :=
  match t with
  | .search sub q => .ok ((env.searchRes sub q).foldl (processSearchItem P sub) st)
  | .comments sid => .ok ((env.commentsRes sid).foldl (processComment P) st)
  | .author name => processAuthorList st (env.authorRes name)
  | .submission _ sid => .ok { st with fr := st.fr.push 1 (CrawlTask.comments sid) }

/-- The reddit crawl loop (crawl.py line 92): while the frontier is
nonempty and items_written is below max_items, pop and dispatch; fuel
bounds the number of iterations modelled (each concrete run below
terminates well within its fuel). -/
def crawlLoop (P : Params) (env : REnv) : ℕ → St → Except St St
  | 0, st => .ok st
  | fuel + 1, st =>
    if st.fr.size ≠ 0 ∧ st.items_written < P.max_items then
      match st.fr.pop with
      | (none, _) => .ok st
      | (some (_, t), fr2) =>
        match dispatchTask P env { st with fr := fr2 } t with
        | .ok st2 => crawlLoop P env fuel st2
        | .error st2 => .error st2
    else .ok st

/-- The metrics row write_metrics receives at the end of run. -/
def rowOf (st : St) : MRow :=
  ⟨st.items_fetched, st.items_written, st.success_calls, st.error_calls, st.dedup_skipped⟩

/-- Appending one metrics row to the metrics sink. -/
def writeMetricsRow (st : St) : St :=
  { st with metrics := st.metrics ++ [rowOf st] }

/-- Seed pushes (crawl.py lines 87-88): every (subreddit, keyword) seed is
pushed as a search task at priority 1.0. -/
def pushSeeds (st : St) (seeds : List (String × String)) : St :=
  seeds.foldl (fun st sk => { st with fr := st.fr.push 1 (CrawlTask.search sk.1 sk.2) }) st

/-- The reddit side of crawl.run: on client-construction failure write one
metrics row with error_calls + 1 and exit; otherwise seed the frontier,
run the loop, and write the final metrics row on normal completion only
(an exception propagating out of the loop skips it). -/
def runReddit (P : Params) (env : REnv) (fuel : ℕ) : Except St St :=
  if env.clientOk = false then
    .ok { St.init with metrics := [⟨0, 0, 0, 1, 0⟩] }
  else
    match crawlLoop P env fuel (pushSeeds St.init env.seeds) with
    | .ok st => .ok (writeMetricsRow st)
    | .error st => .error st

/-! ## crawl.run, Hacker News branch -/

/-- The loop-local variable text of the HN branch: the story text with
the paragraph tag replaced by a newline and the closing tag removed. -/
def hnText (i : HNItem) : String :=
  ⟨pyReplace "</p>".data [] (pyReplace "<p>".data "\n".data i.text.data)⟩

/-- The loop-local variable combined of the HN branch. -/
def hnCombined (i : HNItem) : String :=
  if i.title ≠ "" ∧ hnText i ≠ "" then pyStripS (i.title ++ "\n" ++ hnText i)
  else if i.title ≠ "" then i.title else hnText i

/-- The loop-local variable content of the HN branch. -/
def hnContent (P : Params) (i : HNItem) : ℚ :=
  content_score (hnCombined i) P.keywords P.brands P.policies P.brand_bonus P.policy_bonus

/-- The loop-local variable pr of the HN branch. -/
def hnPr (P : Params) (i : HNItem) : ℚ :=
  final_priority (hnContent P i) (P.rb i.hoursSince P.half_life) 0 0 0

/-- Processing of one Hacker News story (crawl.py lines 276-346): count
the fetch, catch a raising item into error_calls, skip non-stories and
below-minimum combined text (these skip the item-cap check via continue),
score, admit on the single-tier OR policy (content_score at tau_data or
final_priority at tau_frontier), and finally report whether the item cap
was reached (the Boolean is the loop break).  The record text used for
the graph edges equals the combined text (normalize_record applies the
same formula to the same title and body). -/
def hnStep (P : Params) (st : St) (it : Fetched HNItem) : St × Bool :=
  match it with
  | .bad =>
    ({ st with items_fetched := st.items_fetched + 1,
               error_calls := st.error_calls + 1 }, false)
  | .good i =>
    let st := { st with items_fetched := st.items_fetched + 1 }
    if i.typeStr ≠ "story" then (st, false)
    else
      let combined := hnCombined i
      if combined.length < P.min_text_len then (st, false)
      else
        let content := hnContent P i
        let pr := hnPr P i
        let st :=
          if P.tau_data ≤ content ∨ P.tau_frontier ≤ pr then
            let domains := P.outDomains combined
            let postNode := "hn:post:" ++ i.id
            { st with
              posts := st.posts ++ [(⟨"post", i.id⟩ : Rec)],
              items_written := st.items_written + 1,
              nodes := st.nodes ++
                [(postNode, "post"), ("hn:author:" ++ i.author, "author"),
                 ("hn:container:HN", "container")] ++
                domains.map (fun d => ("domain:" ++ d, "domain")),
              edges := st.edges ++
                [(postNode, "hn:author:" ++ i.author, "AUTHORED_BY", (1 : ℚ)),
                 (postNode, "hn:container:HN", "IN_CONTAINER", (1 : ℚ))] ++
                domains.map (fun d => (postNode, "domain:" ++ d, "LINKS_TO_DOMAIN", (1 : ℚ))) ++
                mentionEdges P postNode combined }
          else st
        (st, P.max_items ≤ st.items_written)

/-- The Hacker News loop (crawl.py line 276): drain the story iterator
linearly, stopping early when a step reports the item cap reached. -/
def hnLoop (P : Params) : List (Fetched HNItem) → St → St
  | [], st => st
  | it :: rest, st =>
    let sb := hnStep P st it
    if sb.2 then sb.1 else hnLoop P rest sb.1

/-- The Hacker News side of crawl.run: no frontier activity, no client
precondition; the final metrics row is always written. -/
def runHN (P : Params) (stories : List (Fetched HNItem)) : St :=
  writeMetricsRow (hnLoop P stories St.init)

/-! ## crawl.run, both platforms -/

inductive Platform where
  | reddit
  | hn
deriving DecidableEq

/-- crawl.run: dispatch on the platform.  The result is the run state at
process exit; an error value is an exception propagating out of run
(possible only through the reddit author branch in this model). -/
def run (P : Params) (platform : Platform) (env : REnv)
    (stories : List (Fetched HNItem)) (fuel : ℕ) : Except St St :=
  match platform with
  | .reddit => runReddit P env fuel
  | .hn => .ok (runHN P stories)

/-- The state observable at exit (the files written so far), for both the
normal and the exceptional exit. -/
def outState : Except St St → St
  | .ok st => st
  | .error st => st

/-! ## Concrete fixtures used by witnesses and counterexamples -/

/-- A small concrete configuration: one keyword "aa", one brand "bb",
tau_data = 1, tau_frontier = 1/2, no length filter, constant recency 1,
a constant one-domain extraction. -/
def Pc : Params :=
  ⟨10, 0, 1, mkRat 1 2, 72, mkRat 7 10, mkRat 2 5, ["aa"], ["bb"], [],
   fun _ _ => 1, fun _ => ["d.com"]⟩

/-- The same configuration with an item cap of one. -/
def Pc1 : Params :=
  { Pc with max_items := 1 }

/-- A submission scoring 7/5 (admitted under Pc), with an author. -/
def subA : RSub := ⟨"id1", "aa aa", "", some "alice", 5⟩

/-- A submission scoring 4/5 (explore-only under Pc), no author. -/
def subB : RSub := ⟨"id2", "aa", "", none, 5⟩

/-- A submission scoring 0 (dropped under Pc). -/
def subC : RSub := ⟨"id3", "zz", "", some "bob", 5⟩

/-- Search yields the three graded submissions and a repeat of the first;
comment and author fetches are empty. -/
def envA : REnv :=
  ⟨true, [("s", "q")],
   fun _ _ => [.good subA, .good subB, .good subC, .good subA],
   fun _ => [], fun _ => []⟩

/-- An environment whose author timeline yields a raising item: the run
admits subA, enqueues its author task, and the author branch raises. -/
def envAbort : REnv :=
  ⟨true, [("s", "q")], fun _ _ => [.good subA], fun _ => [], fun _ => [.bad]⟩

/-- A qualifying story, a weaker but explore-qualifying story, and a
non-qualifying story. -/
def hsA : HNItem := ⟨"story", "h1", "aa aa", "", "carol", 5⟩

def hsB : HNItem := ⟨"story", "h2", "aa", "", "dave", 5⟩

def hsLow : HNItem := ⟨"story", "h3", "zz", "", "eve", 5⟩

/-- A state in which subA's identifier has already been seen. -/
def stSeen : St := { St.init with seen_posts := ["id1"] }

/-! ## Claim theorems -/

/-- C7: content_score of the EV test sentence with keywords
ev scooter / electric / battery / charging, brands Ather / Ola, policy
FAME, brand bonus 0.7 (mkRat 7 10) and policy bonus 0.4 (mkRat 2 5),
is strictly greater than 2 (the exact value is 33/10). -/
theorem C7_content_score_ev_sentence :
    (2 : ℚ) < content_score
      "The new Ather electric scooter gets better battery swap options and fast charging."
      ["ev scooter", "electric", "battery", "charging"] ["Ather", "Ola"] ["FAME"]
      (mkRat 7 10) (mkRat 2 5) := by
  decide

/-- C8: recency_boost returns exactly 1 when hours or half-life is
nonpositive; otherwise it equals 2 ^ (-h / H), which is positive and at
most 1; and for each fixed positive half-life it is strictly decreasing
over positive hours. -/
theorem C8_recency_boost_shape :
    (∀ h H : ℝ, h ≤ 0 ∨ H ≤ 0 → recency_boost h H = 1) ∧
    (∀ h H : ℝ, 0 < h → 0 < H →
      recency_boost h H = (2 : ℝ) ^ (-(h / H)) ∧
      0 < recency_boost h H ∧ recency_boost h H ≤ 1) ∧
    (∀ H : ℝ, 0 < H → ∀ h1 h2 : ℝ, 0 < h1 → h1 < h2 →
      recency_boost h2 H < recency_boost h1 H) := by
  have hval : ∀ h H : ℝ, 0 < h → 0 < H →
      recency_boost h H = (2 : ℝ) ^ (-(h / H)) := by
    intro h H hh hH
    unfold recency_boost
    rw [if_neg (not_le.mpr hh), if_neg (not_le.mpr hH)]
  refine ⟨?_, ?_, ?_⟩
  · intro h H hc
    unfold recency_boost
    rcases hc with hc | hc
    · rw [if_pos hc]
    · by_cases hh : h ≤ 0
      · rw [if_pos hh]
      · rw [if_neg hh, if_pos hc]
  · intro h H hh hH
    refine ⟨hval h H hh hH, ?_, ?_⟩
    · rw [hval h H hh hH]
      exact Real.rpow_pos_of_pos (by norm_num) _
    · rw [hval h H hh hH]
      apply Real.rpow_le_one_of_one_le_of_nonpos (by norm_num)
      have hnn : 0 ≤ h / H := div_nonneg hh.le hH.le
      linarith
  · intro H hH h1 h2 hh1 h12
    rw [hval h1 H hh1 hH, hval h2 H (lt_trans hh1 h12) hH]
    have hd : h1 / H < h2 / H := by gcongr
    exact (Real.rpow_lt_rpow_left_iff (by norm_num)).mpr (by linarith)

/-- Witness for C8 at concrete inputs: the guard at hours -1, and strict
decrease from hours 1 to hours 3 at half-life 2. -/
theorem C8_recency_boost_shape_witness :
    recency_boost (-1) 5 = 1 ∧ recency_boost 3 2 < recency_boost 1 2 :=
  ⟨C8_recency_boost_shape.1 (-1) 5 (Or.inl (by norm_num)),
   C8_recency_boost_shape.2.2 2 (by norm_num) 1 3 (by norm_num) (by norm_num)⟩

/-- C2: on a reachable frontier, pop returns none (and leaves the state
unchanged) exactly on the empty heap; on a nonempty heap it removes and
returns an entry whose (un-negated) priority is maximal, and of least
sequence number (earliest push) among entries of equal priority; and the
concrete push sequence of priorities 3, 1, 3, 2 pops as 3, 3, 2, 1 with
the two priority-3 entries in their push order. -/
theorem C2_frontier_pop_order {τ : Type} (f : Frontier τ) (_hf : f.Reachable) :
    (f.heap = [] → (f.pop).1 = none ∧ (f.pop).2 = f) ∧
    (f.heap ≠ [] → ∃ e h, popMin f.heap = some (e, h) ∧
      (f.pop).1 = some (-e.priority, e.item) ∧
      (f.pop).2.heap = h ∧
      f.heap.Perm (e :: h) ∧
      ∀ x ∈ f.heap, -x.priority < -e.priority ∨
        (x.priority = e.priority ∧ e.seq ≤ x.seq)) ∧
    (let f0 := ((((Frontier.new (τ := String)).push 3 "a").push 1 "b").push 3 "c").push 2 "d"
     let p1 := f0.pop
     let p2 := p1.2.pop
     let p3 := p2.2.pop
     let p4 := p3.2.pop
     p1.1 = some (3, "a") ∧ p2.1 = some (3, "c") ∧
     p3.1 = some (2, "d") ∧ p4.1 = some (1, "b") ∧ p4.2.heap = []) := by
  refine ⟨?_, ?_, ?_⟩
  · intro hemp
    unfold Frontier.pop
    rw [hemp]
    exact ⟨rfl, rfl⟩
  · intro hne
    cases hpm : popMin f.heap with
    | none => exact absurd (popMin_none.mp hpm) hne
    | some p =>
      rcases p with ⟨e, h⟩
      refine ⟨e, h, rfl, ?_, ?_, popMin_perm hpm, ?_⟩
      · unfold Frontier.pop
        rw [hpm]
      · unfold Frontier.pop
        rw [hpm]
      · intro x hx
        rcases popMin_least hpm x hx with hlt | ⟨heq, hseq⟩
        · exact Or.inl (neg_lt_neg hlt)
        · exact Or.inr ⟨heq.symm, hseq⟩
  · decide

/-- Witness for C2: its concrete pop-order conjunct, obtained by applying
the theorem to the (reachable) fresh frontier. -/
theorem C2_frontier_pop_order_witness :
    (let f0 := ((((Frontier.new (τ := String)).push 3 "a").push 1 "b").push 3 "c").push 2 "d"
     let p1 := f0.pop
     let p2 := p1.2.pop
     let p3 := p2.2.pop
     let p4 := p3.2.pop
     p1.1 = some (3, "a") ∧ p2.1 = some (3, "c") ∧
     p3.1 = some (2, "d") ∧ p4.1 = some (1, "b") ∧ p4.2.heap = []) :=
  (C2_frontier_pop_order (Frontier.new (τ := String)) Frontier.Reachable.new).2.2

/-! ## Stability helpers: no step inside the crawl loops touches the
metrics sink or the success counter -/

theorem foldl_proj_eq {α γ : Type} (f : St → α → St) (proj : St → γ)
    (h : ∀ st a, proj (f st a) = proj st) :
    ∀ (l : List α) (st : St), proj (List.foldl f st l) = proj st := by
  intro l
  induction l with
  | nil => intro st; rfl
  | cons a rest ih =>
    intro st
    rw [List.foldl_cons, ih, h]

/-- The observables untouched by every in-loop step: the metrics rows and
the success counter. -/
def msProj (st : St) : List MRow × ℕ :=
  (st.metrics, st.success_calls)

theorem processSearchItem_ms (P : Params) (sub : String) (st : St) (it : Fetched RSub) :
    msProj (processSearchItem P sub st it) = msProj st := by
  cases it with
  | bad => rfl
  | good s =>
    by_cases h1 : s.id ∈ st.seen_posts
    · simp [processSearchItem, h1, msProj]
    · by_cases h2 : (searchText s).length < P.min_text_len
      · simp [processSearchItem, h1, h2, msProj]
      · by_cases h3 : P.tau_data ≤ searchContent P s
        · cases ha : s.author <;> simp [processSearchItem, h1, h2, h3, ha, msProj]
        · by_cases h4 : P.tau_frontier ≤ searchPr P s <;>
            simp [processSearchItem, h1, h2, h3, h4, msProj]

theorem processComment_ms (P : Params) (st : St) (it : Fetched RComment) :
    msProj (processComment P st it) = msProj st := by
  cases it with
  | bad => rfl
  | good c =>
    by_cases h1 : (pyStrip c.body.data).length < P.min_text_len
    · simp [processComment, h1, msProj]
    · by_cases h2 : c.authorName ≠ "" <;>
        cases hp : c.parent with
      | none => simp [processComment, h1, h2, hp, msProj]
      | some pid =>
        by_cases h3 : pid = "" <;>
          simp [processComment, h1, h2, hp, h3, msProj]

theorem processAuthorList_ms (l : List (Fetched ASub)) : ∀ st : St,
    msProj (outState (processAuthorList st l)) = msProj st := by
  induction l with
  | nil => intro st; rfl
  | cons a rest ih =>
    intro st
    cases a with
    | bad => rfl
    | good s => simpa [processAuthorList] using ih _

theorem dispatchTask_ms (P : Params) (env : REnv) (st : St) (t : CrawlTask) :
    msProj (outState (dispatchTask P env st t)) = msProj st := by
  cases t with
  | search sub q =>
    exact foldl_proj_eq (processSearchItem P sub) msProj
      (processSearchItem_ms P sub) (env.searchRes sub q) st
  | comments sid =>
    exact foldl_proj_eq (processComment P) msProj
      (processComment_ms P) (env.commentsRes sid) st
  | author name => exact processAuthorList_ms (env.authorRes name) st
  | submission sub sid => rfl

theorem crawlLoop_ms (P : Params) (env : REnv) : ∀ (fuel : ℕ) (st : St),
    msProj (outState (crawlLoop P env fuel st)) = msProj st := by
  intro fuel
  induction fuel with
  | zero => intro st; rfl
  | succ n ih =>
    intro st
    unfold crawlLoop
    by_cases hc : st.fr.size ≠ 0 ∧ st.items_written < P.max_items
    · rw [if_pos hc]
      cases hp : st.fr.pop with
      | mk o fr2 =>
        cases o with
        | none => rfl
        | some pt =>
          rcases pt with ⟨p, t⟩
          cases hd : dispatchTask P env { st with fr := fr2 } t with
          | ok st2 =>
            have h1 := dispatchTask_ms P env { st with fr := fr2 } t
            rw [hd] at h1
            simp only [outState] at h1
            simp only [hd]
            rw [ih st2, h1]
            rfl
          | error st2 =>
            have h1 := dispatchTask_ms P env { st with fr := fr2 } t
            rw [hd] at h1
            simp only [outState] at h1
            simp only [hd]
            simp only [outState]
            rw [h1]
            rfl
    · rw [if_neg hc]; rfl

theorem pushSeeds_ms (seeds : List (String × String)) (st : St) :
    msProj (pushSeeds st seeds) = msProj st := by
  unfold pushSeeds
  apply foldl_proj_eq
  intro st a
  rfl

theorem hnStep_ms (P : Params) (st : St) (it : Fetched HNItem) :
    msProj (hnStep P st it).1 = msProj st := by
  cases it with
  | bad => rfl
  | good i =>
    by_cases h1 : i.typeStr ≠ "story"
    · simp [hnStep, h1, msProj]
    · by_cases h2 : (hnCombined i).length < P.min_text_len
      · simp [hnStep, h1, h2, msProj]
      · by_cases h3 : P.tau_data ≤ hnContent P i ∨ P.tau_frontier ≤ hnPr P i <;>
          simp [hnStep, h1, h2, h3, msProj]

theorem hnLoop_ms (P : Params) (l : List (Fetched HNItem)) : ∀ st : St,
    msProj (hnLoop P l st) = msProj st := by
  induction l with
  | nil => intro st; rfl
  | cons it rest ih =>
    intro st
    unfold hnLoop
    by_cases hb : (hnStep P st it).2
    · rw [if_pos hb]
      exact hnStep_ms P st it
    · rw [if_neg hb]
      rw [ih (hnStep P st it).1, hnStep_ms P st it]

/-- C3 (amended): every normal (non-exception) completion of run writes
exactly one metrics row, and on the fatal path where the reddit client
cannot be constructed no crawling is performed and the single row carries
error_calls 1 with items_fetched and items_written 0.  (The claim's
stronger "every exit path" fails: an exception escaping the unguarded
author branch exits without a metrics row, see the counterexample.) -/
theorem C3_metrics_flush_amended (P : Params) (pf : Platform) (env : REnv)
    (stories : List (Fetched HNItem)) (fuel : ℕ) :
    (∀ st, run P pf env stories fuel = .ok st → st.metrics.length = 1) ∧
    (env.clientOk = false →
      run P .reddit env stories fuel =
        .ok { St.init with metrics := [⟨0, 0, 0, 1, 0⟩] }) := by
  constructor
  · intro st hok
    cases pf with
    | hn =>
      simp only [run, Except.ok.injEq] at hok
      subst hok
      unfold runHN writeMetricsRow
      have h := hnLoop_ms P stories St.init
      have hm : (hnLoop P stories St.init).metrics = [] :=
        congrArg Prod.fst h
      simp [hm]
    | reddit =>
      simp only [run, runReddit] at hok
      by_cases hclient : env.clientOk = false
      · rw [if_pos hclient] at hok
        simp only [Except.ok.injEq] at hok
        subst hok
        rfl
      · rw [if_neg hclient] at hok
        cases hloop : crawlLoop P env fuel (pushSeeds St.init env.seeds) with
        | ok st2 =>
          rw [hloop] at hok
          simp only [Except.ok.injEq] at hok
          subst hok
          have h := crawlLoop_ms P env fuel (pushSeeds St.init env.seeds)
          rw [hloop] at h
          simp only [outState] at h
          have hm : st2.metrics = (pushSeeds St.init env.seeds).metrics :=
            congrArg Prod.fst h
          have hseeds : (pushSeeds St.init env.seeds).metrics = [] :=
            (congrArg Prod.fst (pushSeeds_ms env.seeds St.init)).trans rfl
          simp [writeMetricsRow, hm, hseeds]
        | error st2 =>
          rw [hloop] at hok
          exact absurd hok (by simp)
  · intro hclient
    simp [run, runReddit, hclient]

/-- C3 counterexample: a run exit (the exception escaping the author
branch of the concrete abort environment) at which the metrics sink holds
no row at all, falsifying "exactly one metrics row on every exit path". -/
theorem C3_counterexample_no_row_on_abort :
    (run Pc .reddit envAbort [] 20).isOk = false ∧
    (outState (run Pc .reddit envAbort [] 20)).metrics = [] := by
  decide

/-- Witness for C3 at a concrete zero-yield run: a story that never
qualifies still produces exactly one metrics row, with items_written 0. -/
theorem C3_metrics_flush_amended_witness :
    (runHN Pc [.good hsLow]).metrics.length = 1 ∧
    (runHN Pc [.good hsLow]).items_written = 0 := by
  constructor
  · exact (C3_metrics_flush_amended Pc .hn envA [.good hsLow] 0).1
      (runHN Pc [.good hsLow]) rfl
  · decide

/-- C4 (amended): an exception raised while processing one fetched item
in the search, comments, or flat-feed branch is caught, increments
error_calls by exactly one (the search and flat-feed branches have
already counted the fetch), and the remaining items of the batch are
still processed; the author-timeline branch has no handler, so a raising
item there propagates the exception and aborts the dispatch. -/
theorem C4_per_item_error_handling_amended (P : Params) (sub : String) (st : St)
    (l : List (Fetched RSub)) (cl : List (Fetched RComment))
    (hl : List (Fetched HNItem)) (arest : List (Fetched ASub)) :
    (processSearchItem P sub st .bad =
      { st with items_fetched := st.items_fetched + 1,
                error_calls := st.error_calls + 1 }) ∧
    (List.foldl (processSearchItem P sub) st (.bad :: l) =
      List.foldl (processSearchItem P sub)
        { st with items_fetched := st.items_fetched + 1,
                  error_calls := st.error_calls + 1 } l) ∧
    (processComment P st .bad = { st with error_calls := st.error_calls + 1 }) ∧
    (List.foldl (processComment P) st (.bad :: cl) =
      List.foldl (processComment P)
        { st with error_calls := st.error_calls + 1 } cl) ∧
    (hnStep P st .bad =
      ({ st with items_fetched := st.items_fetched + 1,
                 error_calls := st.error_calls + 1 }, false)) ∧
    (hnLoop P (.bad :: hl) st =
      hnLoop P hl { st with items_fetched := st.items_fetched + 1,
                            error_calls := st.error_calls + 1 }) ∧
    (processAuthorList st (.bad :: arest) = .error st) :=
  ⟨rfl, rfl, rfl, rfl, rfl, rfl, rfl⟩

/-- C4 counterexample: in the concrete abort environment the single
raising item sits in the author timeline; its exception is not caught
(error_calls stays 0) and the run aborts, falsifying "no exception raised
while processing a single fetched item aborts the run". -/
theorem C4_counterexample_author_abort :
    (run Pc .reddit envAbort [] 20).isOk = false ∧
    (outState (run Pc .reddit envAbort [] 20)).error_calls = 0 := by
  decide

/-- C1: for a search-result item that passes dedup and the minimum-length
filter: if its content_score reaches tau_data, exactly one record is
persisted, items_written increases by one, and a Comments task — plus an
Author task when the item has an author — is pushed at priority
final_priority; otherwise, if final_priority reaches tau_frontier, no
record is persisted and exactly one Comments task is pushed at that
priority; otherwise nothing is persisted and nothing is enqueued. -/
theorem C1_two_tier_admission (P : Params) (subreddit : String) (st : St) (s : RSub)
    (hdedup : s.id ∉ st.seen_posts)
    (hlen : ¬ (searchText s).length < P.min_text_len) :
    (P.tau_data ≤ searchContent P s →
      (processSearchItem P subreddit st (.good s)).posts =
        st.posts ++ [⟨"post", s.id⟩] ∧
      (processSearchItem P subreddit st (.good s)).items_written =
        st.items_written + 1 ∧
      (processSearchItem P subreddit st (.good s)).fr =
        st.fr.pushList ((searchPr P s, CrawlTask.comments s.id) ::
          (match s.author with
           | some a => [(searchPr P s, CrawlTask.author a)]
           | none => []))) ∧
    (¬ P.tau_data ≤ searchContent P s → P.tau_frontier ≤ searchPr P s →
      (processSearchItem P subreddit st (.good s)).posts = st.posts ∧
      (processSearchItem P subreddit st (.good s)).items_written = st.items_written ∧
      (processSearchItem P subreddit st (.good s)).fr =
        st.fr.push (searchPr P s) (CrawlTask.comments s.id)) ∧
    (¬ P.tau_data ≤ searchContent P s → ¬ P.tau_frontier ≤ searchPr P s →
      (processSearchItem P subreddit st (.good s)).posts = st.posts ∧
      (processSearchItem P subreddit st (.good s)).items_written = st.items_written ∧
      (processSearchItem P subreddit st (.good s)).fr = st.fr) := by
  by_cases hc : P.tau_data ≤ searchContent P s
  · refine ⟨fun _ => ?_, fun hno _ => absurd hc hno, fun hno _ => absurd hc hno⟩
    cases ha : s.author with
    | some a =>
      refine ⟨?_, ?_, ?_⟩ <;>
        simp [processSearchItem, hdedup, hlen, hc, ha, Frontier.pushList]
    | none =>
      refine ⟨?_, ?_, ?_⟩ <;>
        simp [processSearchItem, hdedup, hlen, hc, ha, Frontier.pushList]
  · by_cases hp : P.tau_frontier ≤ searchPr P s
    · refine ⟨fun hyes => absurd hyes hc, fun _ _ => ?_, fun _ hno => absurd hp hno⟩
      refine ⟨?_, ?_, ?_⟩ <;> simp [processSearchItem, hdedup, hlen, hc, hp]
    · refine ⟨fun hyes => absurd hyes hc, fun _ hyes => absurd hyes hp, fun _ _ => ?_⟩
      refine ⟨?_, ?_, ?_⟩ <;> simp [processSearchItem, hdedup, hlen, hc, hp]

/-- Witness for C1 at the admitted fixture submission: one record
persisted, one item written, Comments and Author tasks pushed. -/
theorem C1_two_tier_admission_witness :
    (processSearchItem Pc "s" St.init (.good subA)).posts = [⟨"post", "id1"⟩] ∧
    (processSearchItem Pc "s" St.init (.good subA)).items_written = 1 ∧
    (processSearchItem Pc "s" St.init (.good subA)).fr =
      St.init.fr.pushList [(searchPr Pc subA, CrawlTask.comments "id1"),
                           (searchPr Pc subA, CrawlTask.author "alice")] := by
  have h := C1_two_tier_admission Pc "s" St.init subA (by decide) (by decide)
  have h1 := h.1 (by decide)
  exact ⟨h1.1, h1.2.1, h1.2.2⟩

/-! ## Helpers for the Hacker News claims -/

theorem hnStep_fr (P : Params) (st : St) (it : Fetched HNItem) :
    (hnStep P st it).1.fr = st.fr := by
  cases it with
  | bad => rfl
  | good i =>
    by_cases h1 : i.typeStr ≠ "story"
    · simp [hnStep, h1]
    · by_cases h2 : (hnCombined i).length < P.min_text_len
      · simp [hnStep, h1, h2]
      · by_cases h3 : P.tau_data ≤ hnContent P i ∨ P.tau_frontier ≤ hnPr P i <;>
          simp [hnStep, h1, h2, h3]

theorem hnLoop_fr (P : Params) (l : List (Fetched HNItem)) : ∀ st : St,
    (hnLoop P l st).fr = st.fr := by
  induction l with
  | nil => intro st; rfl
  | cons it rest ih =>
    intro st
    unfold hnLoop
    by_cases hb : (hnStep P st it).2
    · rw [if_pos hb]; exact hnStep_fr P st it
    · rw [if_neg hb]; rw [ih (hnStep P st it).1, hnStep_fr P st it]

theorem hnStep_posts_kind (P : Params) (st : St) (it : Fetched HNItem) (r : Rec)
    (hr : r ∈ (hnStep P st it).1.posts) : r ∈ st.posts ∨ r.kind = "post" := by
  cases it with
  | bad => exact Or.inl hr
  | good i =>
    by_cases h1 : i.typeStr ≠ "story"
    · simp [hnStep, h1] at hr; exact Or.inl hr
    · by_cases h2 : (hnCombined i).length < P.min_text_len
      · simp [hnStep, h1, h2] at hr; exact Or.inl hr
      · by_cases h3 : P.tau_data ≤ hnContent P i ∨ P.tau_frontier ≤ hnPr P i
        · simp [hnStep, h1, h2, h3] at hr
          rcases hr with hr | hr
          · exact Or.inl hr
          · subst hr; exact Or.inr rfl
        · simp [hnStep, h1, h2, h3] at hr; exact Or.inl hr

theorem hnLoop_posts_kind (P : Params) (l : List (Fetched HNItem)) : ∀ (st : St)
    (r : Rec), r ∈ (hnLoop P l st).posts → r ∈ st.posts ∨ r.kind = "post" := by
  induction l with
  | nil => intro st r hr; exact Or.inl hr
  | cons it rest ih =>
    intro st r hr
    unfold hnLoop at hr
    by_cases hb : (hnStep P st it).2
    · rw [if_pos hb] at hr
      exact hnStep_posts_kind P st it r hr
    · rw [if_neg hb] at hr
      rcases ih (hnStep P st it).1 r hr with hmem | hkind
      · exact hnStep_posts_kind P st it r hmem
      · exact Or.inr hkind

/-- C6: on the flat-feed platform, for a fetched story that is of type
story and passes the minimum-length filter: the story is persisted (with
its full node/edge pattern, one record, items_written + 1) exactly when
content_score reaches tau_data OR final_priority reaches tau_frontier;
otherwise only the fetch counter moves.  Moreover no frontier task is
ever enqueued by the flat-feed loop, and every record it persists is a
post — no replies are ingested. -/
theorem C6_hn_single_tier_or (P : Params) (st : St) (i : HNItem)
    (htype : i.typeStr = "story")
    (hlen : ¬ (hnCombined i).length < P.min_text_len) :
    ((P.tau_data ≤ hnContent P i ∨ P.tau_frontier ≤ hnPr P i) →
      (hnStep P st (.good i)).1 = { st with
        items_fetched := st.items_fetched + 1,
        items_written := st.items_written + 1,
        posts := st.posts ++ [⟨"post", i.id⟩],
        nodes := st.nodes ++
          [("hn:post:" ++ i.id, "post"), ("hn:author:" ++ i.author, "author"),
           ("hn:container:HN", "container")] ++
          (P.outDomains (hnCombined i)).map (fun d => ("domain:" ++ d, "domain")),
        edges := st.edges ++
          [("hn:post:" ++ i.id, "hn:author:" ++ i.author, "AUTHORED_BY", (1 : ℚ)),
           ("hn:post:" ++ i.id, "hn:container:HN", "IN_CONTAINER", (1 : ℚ))] ++
          (P.outDomains (hnCombined i)).map
            (fun d => ("hn:post:" ++ i.id, "domain:" ++ d, "LINKS_TO_DOMAIN", (1 : ℚ))) ++
          mentionEdges P ("hn:post:" ++ i.id) (hnCombined i) }) ∧
    (¬ (P.tau_data ≤ hnContent P i ∨ P.tau_frontier ≤ hnPr P i) →
      (hnStep P st (.good i)).1 =
        { st with items_fetched := st.items_fetched + 1 }) ∧
    ((hnStep P st (.good i)).1.fr = st.fr) ∧
    (∀ (l : List (Fetched HNItem)) (st0 : St), (hnLoop P l st0).fr = st0.fr) ∧
    (∀ (l : List (Fetched HNItem)) (st0 : St) (r : Rec),
      r ∈ (hnLoop P l st0).posts → r ∈ st0.posts ∨ r.kind = "post") := by
  have htype2 : ¬ i.typeStr ≠ "story" := by simp [htype]
  refine ⟨?_, ?_, hnStep_fr P st (.good i), hnLoop_fr P, hnLoop_posts_kind P⟩
  · intro hor
    simp [hnStep, htype2, hlen, hor]
  · intro hor
    simp [hnStep, htype2, hlen, hor]

/-- Witness for C6 at the admitted fixture story. -/
theorem C6_hn_single_tier_or_witness :
    (hnStep Pc St.init (.good hsA)).1.posts = [⟨"post", "h1"⟩] ∧
    (hnStep Pc St.init (.good hsA)).1.items_written = 1 ∧
    (hnStep Pc St.init (.good hsA)).1.fr = St.init.fr := by
  have h := C6_hn_single_tier_or Pc St.init hsA (by decide) (by decide)
  have h1 := h.1 (by decide)
  refine ⟨?_, ?_, h.2.2.1⟩
  · rw [h1]
    decide
  · rw [h1]
    decide

theorem hnStep_written_le (P : Params) (st : St) (it : Fetched HNItem) :
    (hnStep P st it).1.items_written ≤ st.items_written + 1 := by
  cases it with
  | bad => exact Nat.le_succ _
  | good i =>
    by_cases h1 : i.typeStr ≠ "story"
    · simp [hnStep, h1]
    · by_cases h2 : (hnCombined i).length < P.min_text_len
      · simp [hnStep, h1, h2]
      · by_cases h3 : P.tau_data ≤ hnContent P i ∨ P.tau_frontier ≤ hnPr P i <;>
          simp [hnStep, h1, h2, h3]

theorem hnStep_written_of_not_brk (P : Params) (st : St) (it : Fetched HNItem)
    (hb : (hnStep P st it).2 = false) (h : st.items_written < P.max_items) :
    (hnStep P st it).1.items_written < P.max_items := by
  cases it with
  | bad => exact h
  | good i =>
    by_cases h1 : i.typeStr ≠ "story"
    · simpa [hnStep, h1] using h
    · by_cases h2 : (hnCombined i).length < P.min_text_len
      · simpa [hnStep, h1, h2] using h
      · by_cases h3 : P.tau_data ≤ hnContent P i ∨ P.tau_frontier ≤ hnPr P i <;>
          simp [hnStep, h1, h2, h3] at hb ⊢ <;> omega

theorem hnStep_posts_len (P : Params) (st : St) (it : Fetched HNItem)
    (h : st.items_written = st.posts.length) :
    (hnStep P st it).1.items_written = (hnStep P st it).1.posts.length := by
  cases it with
  | bad => exact h
  | good i =>
    by_cases h1 : i.typeStr ≠ "story"
    · simpa [hnStep, h1] using h
    · by_cases h2 : (hnCombined i).length < P.min_text_len
      · simpa [hnStep, h1, h2] using h
      · by_cases h3 : P.tau_data ≤ hnContent P i ∨ P.tau_frontier ≤ hnPr P i <;>
          simp [hnStep, h1, h2, h3, h]

theorem hnLoop_cap (P : Params) (l : List (Fetched HNItem)) : ∀ st : St,
    st.items_written < P.max_items →
    (hnLoop P l st).items_written ≤ P.max_items := by
  induction l with
  | nil => intro st h; exact Nat.le_of_lt h
  | cons it rest ih =>
    intro st h
    unfold hnLoop
    by_cases hb : (hnStep P st it).2
    · rw [if_pos hb]
      exact Nat.le_trans (hnStep_written_le P st it) (Nat.succ_le_of_lt h)
    · rw [if_neg hb]
      exact ih _ (hnStep_written_of_not_brk P st it (Bool.not_eq_true _ ▸ hb) h)

theorem hnLoop_posts_len (P : Params) (l : List (Fetched HNItem)) : ∀ st : St,
    st.items_written = st.posts.length →
    (hnLoop P l st).items_written = (hnLoop P l st).posts.length := by
  induction l with
  | nil => intro st h; exact h
  | cons it rest ih =>
    intro st h
    unfold hnLoop
    by_cases hb : (hnStep P st it).2
    · rw [if_pos hb]
      exact hnStep_posts_len P st it h
    · rw [if_neg hb]
      exact ih _ (hnStep_posts_len P st it h)

/-- C10: on the flat-feed platform, with an item cap of at least one,
neither the items_written counter nor the number of persisted records at
run end ever exceeds max_items: the cap is checked after every processed
story and the loop breaks as soon as it is reached. -/
theorem C10_hn_item_cap (P : Params) (stories : List (Fetched HNItem))
    (hmax : 1 ≤ P.max_items) :
    (runHN P stories).items_written ≤ P.max_items ∧
    (runHN P stories).posts.length ≤ P.max_items := by
  have h1 : (hnLoop P stories St.init).items_written ≤ P.max_items :=
    hnLoop_cap P stories St.init (Nat.lt_of_lt_of_le Nat.zero_lt_one hmax)
  have h2 : (hnLoop P stories St.init).items_written =
      (hnLoop P stories St.init).posts.length :=
    hnLoop_posts_len P stories St.init rfl
  exact ⟨h1, h2 ▸ h1⟩

/-- Witness for C10: with the cap set to one and two qualifying stories,
exactly one record survives the cap. -/
theorem C10_hn_item_cap_witness :
    (runHN Pc1 [.good hsA, .good hsB]).items_written ≤ Pc1.max_items ∧
    (runHN Pc1 [.good hsA, .good hsB]).posts.length ≤ Pc1.max_items :=
  C10_hn_item_cap Pc1 [.good hsA, .good hsB] (by decide)

/-! ## Helpers for the dedup claim -/

/-- The persisted post records for one identifier. -/
def postsFor (k : String) (st : St) : List Rec :=
  st.posts.filter (fun r => decide (r.kind = "post" ∧ r.id = k))

/-- The pending Comments tasks for one identifier. -/
def commentTasksFor (k : String) (fr : Frontier CrawlTask) : List (PQItem CrawlTask) :=
  fr.heap.filter (fun e => decide (e.item = CrawlTask.comments k))

theorem processSearchItem_seen_inv (P : Params) (sub k : String)
    (st : St) (it : Fetched RSub) (hk : k ∈ st.seen_posts) :
    k ∈ (processSearchItem P sub st it).seen_posts ∧
    postsFor k (processSearchItem P sub st it) = postsFor k st ∧
    commentTasksFor k (processSearchItem P sub st it).fr = commentTasksFor k st.fr := by
  cases it with
  | bad => exact ⟨hk, rfl, rfl⟩
  | good s =>
    by_cases h1 : s.id ∈ st.seen_posts
    · refine ⟨?_, ?_, ?_⟩ <;> simp [processSearchItem, h1, hk, postsFor, commentTasksFor]
    · have hne : s.id ≠ k := fun he => h1 (he ▸ hk)
      by_cases h2 : (searchText s).length < P.min_text_len
      · refine ⟨?_, ?_, ?_⟩ <;>
          simp [processSearchItem, h1, h2, hk, postsFor, commentTasksFor]
      · by_cases h3 : P.tau_data ≤ searchContent P s
        · cases ha : s.author with
          | some a =>
            refine ⟨?_, ?_, ?_⟩ <;>
              simp [processSearchItem, h1, h2, h3, ha, hk, postsFor, commentTasksFor,
                    Frontier.push, List.filter_append, List.filter, hne]
          | none =>
            refine ⟨?_, ?_, ?_⟩ <;>
              simp [processSearchItem, h1, h2, h3, ha, hk, postsFor, commentTasksFor,
                    Frontier.push, List.filter_append, List.filter, hne]
        · by_cases h4 : P.tau_frontier ≤ searchPr P s
          · refine ⟨?_, ?_, ?_⟩ <;>
              simp [processSearchItem, h1, h2, h3, h4, hk, postsFor, commentTasksFor,
                    Frontier.push, List.filter_append, List.filter, hne]
          · refine ⟨?_, ?_, ?_⟩ <;>
              simp [processSearchItem, h1, h2, h3, h4, hk, postsFor, commentTasksFor]

theorem foldl_search_seen_inv (P : Params) (sub k : String)
    (l : List (Fetched RSub)) : ∀ st : St, k ∈ st.seen_posts →
    postsFor k (List.foldl (processSearchItem P sub) st l) = postsFor k st ∧
    commentTasksFor k (List.foldl (processSearchItem P sub) st l).fr =
      commentTasksFor k st.fr := by
  induction l with
  | nil => intro st hk; exact ⟨rfl, rfl⟩
  | cons it rest ih =>
    intro st hk
    have hstep := processSearchItem_seen_inv P sub k st it hk
    rw [List.foldl_cons]
    have hrec := ih _ hstep.1
    exact ⟨hrec.1.trans hstep.2.1, hrec.2.trans hstep.2.2⟩

/-- C5: on a fresh frontier every key is unseen and mark_seen makes a key
seen; a search-result item whose identifier is already in the seen set is
skipped — only the fetch counter and dedupSkipped move, nothing is
persisted, nothing is enqueued; and across any further search items a
seen identifier is never persisted as a post again nor is a Comments task
for it re-enqueued by the dedup check. -/
theorem C5_dedup_and_seen {τ : Type} (f : Frontier τ) (k0 key k sub : String)
    (P : Params) (st : St) (s : RSub) (l : List (Fetched RSub)) :
    ((Frontier.new (τ := τ)).seen key = false) ∧
    ((f.mark_seen k0).seen k0 = true) ∧
    (s.id ∈ st.seen_posts →
      processSearchItem P sub st (.good s) =
        { st with items_fetched := st.items_fetched + 1,
                  dedup_skipped := st.dedup_skipped + 1 }) ∧
    (k ∈ st.seen_posts →
      postsFor k (List.foldl (processSearchItem P sub) st l) = postsFor k st ∧
      commentTasksFor k (List.foldl (processSearchItem P sub) st l).fr =
        commentTasksFor k st.fr) := by
  refine ⟨rfl, ?_, ?_, fun hk => foldl_search_seen_inv P sub k l st hk⟩
  · simp [Frontier.seen, Frontier.mark_seen]
  · intro hs
    simp [processSearchItem, hs]

/-- Witness for C5 at concrete inputs: the fixture submission is skipped
by the dedup check when its identifier is already seen. -/
theorem C5_dedup_and_seen_witness :
    ((Frontier.new (τ := Nat)).seen "x" = false) ∧
    (((Frontier.new (τ := Nat)).mark_seen "x").seen "x" = true) ∧
    (processSearchItem Pc "s" stSeen (.good subA) =
      { stSeen with items_fetched := stSeen.items_fetched + 1,
                    dedup_skipped := stSeen.dedup_skipped + 1 }) := by
  have h := C5_dedup_and_seen (Frontier.new (τ := Nat)) "x" "x" "id1" "s" Pc
    stSeen subA [.good subA]
  exact ⟨h.1, h.2.1, h.2.2.1 (by decide)⟩

/-- C9: every metrics row written by any run has success_calls 0: the
accumulator is initialized to zero and no code path increments it. -/
theorem C9_success_calls_zero (P : Params) (pf : Platform) (env : REnv)
    (stories : List (Fetched HNItem)) (fuel : ℕ) :
    ∀ row ∈ (outState (run P pf env stories fuel)).metrics, row.success_calls = 0 := by
  intro row hrow
  cases pf with
  | hn =>
    simp only [run, outState] at hrow
    have h := hnLoop_ms P stories St.init
    have hm : (hnLoop P stories St.init).metrics = [] := congrArg Prod.fst h
    have hs : (hnLoop P stories St.init).success_calls = 0 := congrArg Prod.snd h
    unfold runHN writeMetricsRow at hrow
    simp only [hm, List.nil_append, List.mem_singleton] at hrow
    rw [hrow]
    simp [rowOf, hs]
  | reddit =>
    simp only [run, runReddit] at hrow
    by_cases hclient : env.clientOk = false
    · rw [if_pos hclient] at hrow
      simp only [outState, List.mem_singleton] at hrow
      rw [hrow]
    · rw [if_neg hclient] at hrow
      cases hloop : crawlLoop P env fuel (pushSeeds St.init env.seeds) with
      | ok st2 =>
        rw [hloop] at hrow
        simp only [outState] at hrow
        have h := crawlLoop_ms P env fuel (pushSeeds St.init env.seeds)
        rw [hloop] at h
        simp only [outState] at h
        have hseed := pushSeeds_ms env.seeds St.init
        have hm : st2.metrics = [] :=
          (congrArg Prod.fst h).trans ((congrArg Prod.fst hseed).trans rfl)
        have hs : st2.success_calls = 0 :=
          (congrArg Prod.snd h).trans ((congrArg Prod.snd hseed).trans rfl)
        unfold writeMetricsRow at hrow
        simp only [hm, List.nil_append, List.mem_singleton] at hrow
        rw [hrow]
        simp [rowOf, hs]
      | error st2 =>
        rw [hloop] at hrow
        simp only [outState] at hrow
        have h := crawlLoop_ms P env fuel (pushSeeds St.init env.seeds)
        rw [hloop] at h
        simp only [outState] at h
        have hm : st2.metrics = [] :=
          (congrArg Prod.fst h).trans
            ((congrArg Prod.fst (pushSeeds_ms env.seeds St.init)).trans rfl)
        rw [hm] at hrow
        simp at hrow

/-- Witness for C9: the single row of the concrete fixture run carries
success_calls 0. -/
theorem C9_success_calls_zero_witness :
    MRow.success_calls ⟨4, 1, 0, 0, 1⟩ = 0 :=
  C9_success_calls_zero Pc .reddit envA [] 20 ⟨4, 1, 0, 0, 1⟩ (by decide)
